import Mathlib

/- A shallow embedding of the QC reconciliation engine of qc_core.py:
   field-value normalization, bigram similarity, textual and temporal
   comparison, page segmentation, result aggregation, and the notice-field
   (PDF) extractor.  Python floats only ever hold ratios of small integers
   here, so they are modelled exactly by rationals. -/

namespace QC

/-- Python str.strip(): drop leading and trailing whitespace characters. -/
def trimL (l : List Char) : List Char :=
  ((l.dropWhile Char.isWhitespace).reverse.dropWhile Char.isWhitespace).reverse

/-- str.strip() on a string. -/
def strTrim (s : String) : String := ⟨trimL s.data⟩

/-- re.sub(r"\s+", " ", s): collapse every maximal whitespace run to one space. -/
def squeezeWS : List Char → List Char
  | [] => []
  | [c] => [if c.isWhitespace then ' ' else c]
  | c :: d :: rest =>
    if c.isWhitespace && d.isWhitespace then squeezeWS (d :: rest)
    else (if c.isWhitespace then ' ' else c) :: squeezeWS (d :: rest)

/-- normalize_ws from qc_core.py: collapse whitespace runs to single spaces and
strip the ends; empty input normalizes to the empty string. -/
def normalize_ws (s : String) : String := ⟨trimL (squeezeWS s.data)⟩

/-- normalize_case from qc_core.py: whitespace-normalized form, upper-cased. -/
def normalize_case (s : String) : String := ⟨(normalize_ws s).data.map Char.toUpper⟩

/-- The set of consecutive 2-character windows of a string
(the inner bigrams function of qc_core.similar). -/
def bigrams : List Char → Finset (Char × Char)
  | x :: y :: rest => insert (x, y) (bigrams (y :: rest))
  | _ => ∅

/-- similar from qc_core.py: Jaccard index of the bigram sets of the two
lower-cased strings, with the degenerate cases handled first exactly as in the
source: both empty gives 1.0, exactly one empty gives 0.0, both bigram sets
empty gives 1.0, exactly one bigram set empty gives 0.0. -/
def similar (a b : String) : ℚ :=
  if a = "" ∧ b = "" then 1
  else if a = "" ∨ b = "" then 0
  else if bigrams (a.data.map Char.toLower) = ∅ ∧ bigrams (b.data.map Char.toLower) = ∅ then 1
  else if bigrams (a.data.map Char.toLower) = ∅ ∨ bigrams (b.data.map Char.toLower) = ∅ then 0
  else ((bigrams (a.data.map Char.toLower) ∩ bigrams (b.data.map Char.toLower)).card : ℚ) /
       ((bigrams (a.data.map Char.toLower) ∪ bigrams (b.data.map Char.toLower)).card : ℚ)

lemma similar_comm_aux (a b : String) : similar a b = similar b a := by
  unfold similar
  by_cases ha : a = "" <;> by_cases hb : b = "" <;>
    by_cases hA : bigrams (a.data.map Char.toLower) = ∅ <;>
    by_cases hB : bigrams (b.data.map Char.toLower) = ∅ <;>
    simp [ha, hb, hA, hB, Finset.inter_comm, Finset.union_comm]

lemma similar_bounds_aux (a b : String) : 0 ≤ similar a b ∧ similar a b ≤ 1 := by
  unfold similar
  by_cases ha : a = "" <;> by_cases hb : b = "" <;>
    by_cases hA : bigrams (a.data.map Char.toLower) = ∅ <;>
    by_cases hB : bigrams (b.data.map Char.toLower) = ∅ <;>
    simp [ha, hb, hA, hB]
  all_goals {
    constructor
    · positivity
    · have h1 : (bigrams (a.data.map Char.toLower)).Nonempty :=
        Finset.nonempty_iff_ne_empty.mpr hA
      have h2 : 0 < (bigrams (a.data.map Char.toLower) ∪
          bigrams (b.data.map Char.toLower)).card :=
        Finset.card_pos.mpr (h1.mono Finset.subset_union_left)
      have hpos : (0 : ℚ) < ((bigrams (a.data.map Char.toLower) ∪
          bigrams (b.data.map Char.toLower)).card : ℚ) := by exact_mod_cast h2
      rw [div_le_one hpos]
      exact_mod_cast Finset.card_le_card Finset.inter_subset_union
  }

lemma similar_self_aux (a : String) (h : a ≠ "") : similar a a = 1 := by
  unfold similar
  by_cases hA : bigrams (a.data.map Char.toLower) = ∅ <;> simp [h, hA]

lemma similar_short_aux (a b : String) (ha : a.length = 1) (hb : b.length = 1) :
    similar a b = 1 := by
  have ha1 : a.data.length = 1 := ha
  have hb1 : b.data.length = 1 := hb
  obtain ⟨c, hc⟩ := List.length_eq_one.mp ha1
  obtain ⟨d, hd⟩ := List.length_eq_one.mp hb1
  have ha' : a ≠ "" := by
    intro h; rw [h] at ha; exact absurd ha (by decide)
  have hb' : b ≠ "" := by
    intro h; rw [h] at hb; exact absurd hb (by decide)
  unfold similar
  rw [hc, hd]
  simp [ha', hb', bigrams]

/-- C4: similar is symmetric, bounded to [0, 1], reflexive at 1.0 on non-empty
strings, 1.0 on two empty strings, 0.0 when exactly one string is empty, and
1.0 for any two one-character strings (both bigram sets empty) regardless of
their contents. -/
theorem similar_props :
    (∀ a b : String, similar a b = similar b a) ∧
    (∀ a b : String, 0 ≤ similar a b ∧ similar a b ≤ 1) ∧
    (∀ a : String, a ≠ "" → similar a a = 1) ∧
    similar "" "" = 1 ∧
    similar "" "x" = 0 ∧
    (∀ a b : String, a.length = 1 → b.length = 1 → similar a b = 1) :=
  ⟨similar_comm_aux, similar_bounds_aux, similar_self_aux, by decide, by decide,
    similar_short_aux⟩

/-- Witness for C4 at concrete inputs: "a" is non-empty so similar "a" "a" = 1,
and "a", "b" both have length 1 so similar "a" "b" = 1. -/
theorem similar_props_witness :
    similar "a" "a" = 1 ∧ similar "a" "b" = 1 :=
  ⟨similar_props.2.2.1 "a" (by decide),
   similar_props.2.2.2.2.2 "a" "b" (by decide) (by decide)⟩

/-- Python-style leading-segment test over characters (needle second). -/
def startsWithList : List Char → List Char → Bool
  | _, [] => true
  | [], _ :: _ => false
  | a :: as, b :: bs => (a == b) && startsWithList as bs

/-- Python str.endswith, used on the per-source tag strings. -/
def tagEndsWith (r suffix : String) : Bool :=
  startsWithList r.data.reverse suffix.data.reverse

/-- ComparisonResult from qc_core.py: one classified field comparison. -/
structure ComparisonResult where
  index : Nat
  group : String
  field : String
  txt : String
  pdf : String
  rb : String
  status : String
  notes : String
deriving DecidableEq

/-- compare_text from qc_core.py.  The per-source tag strings, the redundant
conditional expression on the MISSING branch, and the endswith-driven overall
classification are carried over from the source. -/
def compare_text (index : Nat) (group field : String) (txt pdf rb : String)
    (notes : String) : ComparisonResult :=
  let t_txt := normalize_ws txt
  let t_pdf := normalize_ws pdf
  let t_rb := normalize_ws rb
  if t_txt = "" then
    { index := index, group := group, field := field, txt := t_txt, pdf := t_pdf,
      rb := t_rb, status := if t_pdf ≠ "" ∨ t_rb ≠ "" then "MISSING" else "MISSING",
      notes := notes }
  else
    let results : List String :=
      (if t_pdf ≠ "" then
        (if (9 : ℚ)/10 ≤ similar t_txt t_pdf then ["PDF_EXACT"]
         else if (3 : ℚ)/5 ≤ similar t_txt t_pdf then ["PDF_PARTIAL"]
         else ["PDF_NONE"])
       else ["PDF_MISSING"]) ++
      (if t_rb ≠ "" then
        (if (9 : ℚ)/10 ≤ similar t_txt t_rb then ["RB_EXACT"]
         else if (3 : ℚ)/5 ≤ similar t_txt t_rb then ["RB_PARTIAL"]
         else ["RB_NONE"])
       else ["RB_MISSING"])
    let status :=
      if (results.filter (fun r => !(tagEndsWith r "MISSING"))).all
          (fun r => tagEndsWith r "EXACT") then "EXACT_MATCH"
      else if results.any (fun r => tagEndsWith r "EXACT" || tagEndsWith r "PARTIAL") then
        (if results.any (fun r => tagEndsWith r "NONE") then "NO_MATCH"
         else "PARTIAL_MATCH")
      else "NO_MATCH"
    { index := index, group := group, field := field, txt := t_txt, pdf := t_pdf,
      rb := t_rb, status := status, notes := notes }

/-- Per-source tier of the textual classification rule as the spec states it. -/
inductive Tier where
  | EXACT
  | PARTIAL
  | NONE
  | MISSING
deriving DecidableEq

/-- The spec's wording of the per-source textual tier: empty source is MISSING,
similarity at least 0.90 is EXACT, similarity in [0.60, 0.90) is PARTIAL, and
below 0.60 is NONE. -/
def tierOf (t src : String) : Tier :=
  if src = "" then Tier.MISSING
  else if (9 : ℚ)/10 ≤ similar t src then Tier.EXACT
  else if (3 : ℚ)/5 ≤ similar t src ∧ similar t src < (9 : ℚ)/10 then Tier.PARTIAL
  else Tier.NONE

/-- The spec's wording of the overall textual status: MISSING when the
normalized transcript value is empty; otherwise EXACT_MATCH when every
non-missing source is EXACT, NO_MATCH when any non-missing source is NONE,
and PARTIAL_MATCH otherwise. -/
def textStatusSpec (txt pdf rb : String) : String :=
  if normalize_ws txt = "" then "MISSING"
  else
    let nonMissing :=
      [tierOf (normalize_ws txt) (normalize_ws pdf),
       tierOf (normalize_ws txt) (normalize_ws rb)].filter
        (fun t => !(t == Tier.MISSING))
    if nonMissing.all (fun t => t == Tier.EXACT) then "EXACT_MATCH"
    else if nonMissing.any (fun t => t == Tier.NONE) then "NO_MATCH"
    else "PARTIAL_MATCH"

/-- C2: for every textual field comparison, the status computed by
compare_text coincides with the spec's classification rule: MISSING for an
empty normalized transcript value; otherwise per-source bigram-similarity
tiers (at least 0.90 EXACT, in [0.60, 0.90) PARTIAL, below 0.60 NONE, empty
source MISSING) with EXACT_MATCH when every non-missing source is EXACT,
NO_MATCH when any non-missing source is NONE, and PARTIAL_MATCH otherwise. -/
theorem compare_text_spec (i : Nat) (g f n txt pdf rb : String) :
    (compare_text i g f txt pdf rb n).status = textStatusSpec txt pdf rb := by
  unfold compare_text textStatusSpec tierOf
  by_cases h0 : normalize_ws txt = ""
  · simp [h0]
  · by_cases hp : normalize_ws pdf = "" <;> by_cases hr : normalize_ws rb = "" <;>
      by_cases e1 : (9 : ℚ)/10 ≤ similar (normalize_ws txt) (normalize_ws pdf) <;>
      by_cases e2 : (3 : ℚ)/5 ≤ similar (normalize_ws txt) (normalize_ws pdf) <;>
      by_cases e3 : (9 : ℚ)/10 ≤ similar (normalize_ws txt) (normalize_ws rb) <;>
      by_cases e4 : (3 : ℚ)/5 ≤ similar (normalize_ws txt) (normalize_ws rb) <;>
      simp [h0, hp, hr, e1, e2, e3, e4, lt_iff_not_le] <;>
      decide

/-- C1 counterexample: a textual comparison whose transcript value normalizes
to "Jane Doe" while both the notice and authoritative values are empty is
classified EXACT_MATCH by compare_text (both sources tag as MISSING, so the
vacuous all-EXACT test succeeds); it is not classified MISSING. -/
theorem compare_text_missing_sources_cx :
    (compare_text 5 "Title Page" "Witness Name" "Jane Doe" "" "" "").status = "EXACT_MATCH" ∧
    (compare_text 5 "Title Page" "Witness Name" "Jane Doe" "" "" "").status ≠ "MISSING" := by
  constructor <;> decide

/-- C1 amended: whenever the transcript value normalizes to a non-empty
string and both the notice and authoritative values are empty, compare_text
returns EXACT_MATCH (not MISSING): both sources are tagged missing and the
overall test over the remaining sources is vacuously true. -/
theorem compare_text_empty_sources_amended (i : Nat) (g f n txt : String)
    (h : normalize_ws txt ≠ "") :
    (compare_text i g f txt "" "" n).status = "EXACT_MATCH" := by
  unfold compare_text
  rw [if_neg h]
  rfl

/-- Witness for the amended C1 at the concrete transcript value "Jane Doe". -/
theorem compare_text_empty_sources_amended_witness :
    normalize_ws "Jane Doe" ≠ "" ∧
    (compare_text 1 "g" "f" "Jane Doe" "" "" "").status = "EXACT_MATCH" :=
  ⟨by decide, compare_text_empty_sources_amended 1 "g" "f" "" "Jane Doe" (by decide)⟩

/-- Digits-to-number accumulation (Python int on a digit string). -/
def digitsToNat (l : List Char) : Nat :=
  l.foldl (fun n c => 10 * n + (c.toNat - 48)) 0

/-- Meridiem token of a clock string: AM/PM or a.m./p.m., case-insensitively;
returns PM-flag and the remaining characters. -/
def parseMeridiem (l : List Char) : Option (Bool × List Char) :=
  let u := l.map Char.toUpper
  if startsWithList u "A.M.".data then some (false, l.drop 4)
  else if startsWithList u "P.M.".data then some (true, l.drop 4)
  else if startsWithList u "AM".data then some (false, l.drop 2)
  else if startsWithList u "PM".data then some (true, l.drop 2)
  else none

/-- Final step of the clock parse: optional whitespace then an optional
meridiem; the result is seconds since midnight (Python datetime.time holds
whole microseconds, and this clock fragment yields whole seconds). -/
def clockFinish (h m sec : Nat) (r : List Char) : Option ℤ :=
  let r' := r.dropWhile Char.isWhitespace
  if r' = [] then
    if h ≤ 23 ∧ m ≤ 59 ∧ sec ≤ 59 then
      some ((h * 3600 + m * 60 + sec : Nat) : ℤ)
    else none
  else
    match parseMeridiem r' with
    | some (isPM, rest) =>
      if rest = [] ∧ 1 ≤ h ∧ h ≤ 12 ∧ m ≤ 59 ∧ sec ≤ 59 then
        some (((h % 12 + if isPM then 12 else 0) * 3600 + m * 60 + sec : Nat) : ℤ)
      else none
    | none => none

/-- Optional seconds component of a clock string. -/
def clockTail (h m : Nat) (r : List Char) : Option ℤ :=
  match r with
  | ':' :: rest =>
    let sd := rest.takeWhile Char.isDigit
    if sd.length = 2 then clockFinish h m (digitsToNat sd) (rest.drop 2)
    else none
  | _ => clockFinish h m 0 r

/-- Hour and minute components of a clock string. -/
def clockParse (l : List Char) : Option ℤ :=
  let hd := l.takeWhile Char.isDigit
  if hd = [] ∨ 2 < hd.length then none
  else
    match l.drop hd.length with
    | ':' :: rest =>
      let md := rest.takeWhile Char.isDigit
      if md.length = 2 then clockTail (digitsToNat hd) (digitsToNat md) (rest.drop 2)
      else none
    | _ => none

/-- parse_time_val from qc_core.py.  The dateutil call is modelled from the
dateutil library restricted to clock-time strings H:MM[:SS] with an optional
AM/PM or a.m./p.m. marker, which is the clock fragment the engine's time
fields produce; any other input is treated as a parse failure (None).  A
time of day is represented by its seconds since midnight. -/
def parseTimeVal (s : String) : Option ℤ :=
  if s = "" then none
  else clockParse (trimL s.data)

/-- time_diff_minutes from qc_core.py: both times of day are combined with
the current date (modelled as an integer day number), and the absolute
difference of the two timestamps in seconds is divided by 60, giving minutes
as an exact rational.  The None guard of the source cannot fire on parsed
times (datetime.time values are always truthy in Python 3), so the embedding
is total. -/
def timeDiffMinutes (today t1 t2 : ℤ) : ℚ :=
  mkRat (((today * 86400 + t1) - (today * 86400 + t2)).natAbs : ℤ) 60

/-- compare_time from qc_core.py: per-source OK/EXACT/NONE/MISSING tags with
the 5-minute notice tolerance and the 0.01-minute authoritative tolerance,
then the endswith-driven overall classification. -/
def compare_time (today : ℤ) (index : Nat) (group field : String)
    (txt pdf rb : String) (notes : String) : ComparisonResult :=
  match parseTimeVal txt with
  | none =>
    { index := index, group := group, field := field, txt := txt, pdf := pdf,
      rb := rb, status := "MISSING", notes := notes }
  | some t =>
    let results : List String :=
      (match parseTimeVal pdf with
       | some p =>
         if timeDiffMinutes today t p ≤ 5 then ["PDF_OK"] else ["PDF_NONE"]
       | none => ["PDF_MISSING"]) ++
      (match parseTimeVal rb with
       | some q =>
         if timeDiffMinutes today t q ≤ mkRat 1 100 then ["RB_EXACT"] else ["RB_NONE"]
       | none => ["RB_MISSING"])
    let status :=
      if (results.filter (fun r => !(tagEndsWith r "MISSING"))).all
          (fun r => r == "PDF_OK" || r == "RB_EXACT") then "EXACT_MATCH"
      else if results.any (fun r => r == "PDF_OK" || r == "RB_EXACT") then
        (if results.any (fun r => tagEndsWith r "NONE") then "NO_MATCH"
         else "PARTIAL_MATCH")
      else "NO_MATCH"
    { index := index, group := group, field := field, txt := txt, pdf := pdf,
      rb := rb, status := status, notes := notes }

/-- Per-source tag of the temporal classification rule as the spec states it. -/
inductive TimeTag where
  | OK
  | EXACT
  | NONE
  | MISSING
deriving DecidableEq

/-- The spec's wording of the temporal rule: unparseable transcript time is
MISSING; the notice source is OK when it parses within 5 minutes of the
transcript time of day (else NONE); the authoritative source is EXACT when it
parses within 0.01 minutes (else NONE); an unparseable or absent source is
MISSING; the overall status follows the textual rule with OK and EXACT as the
passing tier. -/
def timeStatusSpec (txt pdf rb : String) : String :=
  match parseTimeVal txt with
  | none => "MISSING"
  | some t =>
    let pdfTag : TimeTag :=
      match parseTimeVal pdf with
      | none => TimeTag.MISSING
      | some p => if mkRat ((t - p).natAbs : ℤ) 60 ≤ 5 then TimeTag.OK else TimeTag.NONE
    let rbTag : TimeTag :=
      match parseTimeVal rb with
      | none => TimeTag.MISSING
      | some q =>
        if mkRat ((t - q).natAbs : ℤ) 60 ≤ mkRat 1 100 then TimeTag.EXACT else TimeTag.NONE
    let nonMissing := [pdfTag, rbTag].filter (fun x => !(x == TimeTag.MISSING))
    if nonMissing.all (fun x => x == TimeTag.OK || x == TimeTag.EXACT) then "EXACT_MATCH"
    else if nonMissing.any (fun x => x == TimeTag.NONE) then "NO_MATCH"
    else "PARTIAL_MATCH"

lemma timeDiffMinutes_eq_abs (d t1 t2 : ℤ) :
    timeDiffMinutes d t1 t2 = mkRat ((t1 - t2).natAbs : ℤ) 60 := by
  unfold timeDiffMinutes
  have h : d * 86400 + t1 - (d * 86400 + t2) = t1 - t2 := by ring
  rw [h]

lemma compare_time_status_aux (today : ℤ) (i : Nat) (g f n txt pdf rb : String) :
    (compare_time today i g f txt pdf rb n).status = timeStatusSpec txt pdf rb := by
  unfold compare_time timeStatusSpec
  cases htxt : parseTimeVal txt with
  | none => simp [htxt]
  | some t =>
    cases hp : parseTimeVal pdf with
    | none =>
      cases hr : parseTimeVal rb with
      | none =>
        simp [htxt, hp, hr]
        try decide
      | some q =>
        simp only [htxt, hp, hr, timeDiffMinutes_eq_abs]
        by_cases c2 : mkRat (|t - q| : ℤ) 60 ≤ mkRat 1 100 <;>
          simp [c2] <;> try decide
    | some p =>
      cases hr : parseTimeVal rb with
      | none =>
        simp only [htxt, hp, hr, timeDiffMinutes_eq_abs]
        by_cases c1 : mkRat (|t - p| : ℤ) 60 ≤ 5 <;>
          simp [c1] <;> try decide
      | some q =>
        simp only [htxt, hp, hr, timeDiffMinutes_eq_abs]
        by_cases c1 : mkRat (|t - p| : ℤ) 60 ≤ 5 <;>
          by_cases c2 : mkRat (|t - q| : ℤ) 60 ≤ mkRat 1 100 <;>
          simp [c1, c2] <;> try decide

/-- C3: the status computed by compare_time coincides with the spec's
temporal classification rule for every input, and on the spec's two examples:
transcript 9:00 AM with notice 9:03 AM and authoritative 9:00:00 AM is
EXACT_MATCH, and transcript 9:00 AM with notice 9:30 AM and no authoritative
value is NO_MATCH, for every current date. -/
theorem compare_time_spec :
    (∀ (today : ℤ) (i : Nat) (g f n txt pdf rb : String),
      (compare_time today i g f txt pdf rb n).status = timeStatusSpec txt pdf rb) ∧
    (∀ today : ℤ,
      (compare_time today 7 "Title Page" "Start Time" "9:00 AM" "9:03 AM" "9:00:00 AM" "").status
        = "EXACT_MATCH") ∧
    (∀ today : ℤ,
      (compare_time today 7 "Title Page" "Start Time" "9:00 AM" "9:30 AM" "" "").status
        = "NO_MATCH") :=
  ⟨compare_time_status_aux,
   fun today => by rw [compare_time_status_aux]; decide,
   fun today => by rw [compare_time_status_aux]; decide⟩

/-- C10: compare_time only ever returns MISSING, EXACT_MATCH or NO_MATCH;
the PARTIAL_MATCH branch is unreachable because a non-missing temporal source
outside the passing tier is necessarily NONE, which forces NO_MATCH. -/
theorem compare_time_status_range (today : ℤ) (i : Nat) (g f n txt pdf rb : String) :
    (compare_time today i g f txt pdf rb n).status = "MISSING" ∨
    (compare_time today i g f txt pdf rb n).status = "EXACT_MATCH" ∨
    (compare_time today i g f txt pdf rb n).status = "NO_MATCH" := by
  rw [compare_time_status_aux]
  unfold timeStatusSpec
  cases htxt : parseTimeVal txt with
  | none => simp
  | some t =>
    cases hp : parseTimeVal pdf with
    | none =>
      cases hr : parseTimeVal rb with
      | none => simp [hp, hr]
      | some q =>
        by_cases c2 : mkRat (|t - q| : ℤ) 60 ≤ mkRat 1 100 <;>
          simp [hp, hr, c2]
    | some p =>
      cases hr : parseTimeVal rb with
      | none =>
        by_cases c1 : mkRat (|t - p| : ℤ) 60 ≤ 5 <;>
          simp [hp, hr, c1]
      | some q =>
        by_cases c1 : mkRat (|t - p| : ℤ) 60 ≤ 5 <;>
          by_cases c2 : mkRat (|t - q| : ℤ) 60 ≤ mkRat 1 100 <;>
          simp [hp, hr, c1, c2]

/-- The month-name vocabulary of the date regexes, in alternation order. -/
def monthNames : List String :=
  ["January", "February", "March", "April", "May", "June", "July", "August",
   "September", "October", "November", "December"]

/-- Leading month name of a character list: its month number (1-12) and the
length of the name, following the regex alternation order. -/
def monthAtAux : List String → Nat → List Char → Option (Nat × Nat)
  | [], _, _ => none
  | m :: ms, i, l =>
    if startsWithList l m.data then some (i, m.length) else monthAtAux ms (i + 1) l

/-- One attempt of the date regex of qc_core.TXTParser._extract_date at the
head of the character list: a month name, a non-empty run of non-comma
characters, a comma, a whitespace run, and four digits; returns the matched
span. -/
def dateMatchAt (l : List Char) : Option (List Char) :=
  match monthAtAux monthNames 1 l with
  | none => none
  | some (_, k) =>
    let rest := l.drop k
    let seg := rest.takeWhile (fun c => !(c == ','))
    if seg = [] then none
    else
      match rest.drop seg.length with
      | ',' :: rest2 =>
        let ws := rest2.takeWhile Char.isWhitespace
        let ds := (rest2.drop ws.length).takeWhile Char.isDigit
        if 4 ≤ ds.length then some (l.take (k + seg.length + 1 + ws.length + 4))
        else none
      | _ => none

/-- Leftmost match of the date regex (re.search). -/
def findDateScan : List Char → Option (List Char)
  | [] => none
  | l@(_ :: t) =>
    match dateMatchAt l with
    | some m => some m
    | none => findDateScan t

/-- Gregorian leap-year rule. -/
def isLeapYear (y : Nat) : Bool :=
  decide ((y % 4 = 0 ∧ ¬ y % 100 = 0) ∨ y % 400 = 0)

/-- Days in a Gregorian month. -/
def daysInMonth (y mo : Nat) : Nat :=
  if mo = 2 then (if isLeapYear y then 29 else 28)
  else if mo = 4 ∨ mo = 6 ∨ mo = 9 ∨ mo = 11 then 30
  else 31

/-- Days before the given month within its year. -/
def daysBeforeMonth (y mo : Nat) : Nat :=
  (List.range (mo - 1)).foldl (fun acc i => acc + daysInMonth y (i + 1)) 0

/-- Rata-die day number of a proleptic Gregorian date (0001-01-01 is day 1,
Python date.toordinal). -/
def rataDie (y mo d : Nat) : Nat :=
  365 * (y - 1) + (y - 1) / 4 - (y - 1) / 100 + (y - 1) / 400 +
    daysBeforeMonth y mo + d

/-- Python date.weekday(): Monday = 0 (0001-01-01 was a Monday). -/
def weekdayOf (y mo d : Nat) : Nat := (rataDie y mo d + 6) % 7

/-- One calendar day forward with month and year rollover, on a
(year, month, day) triple. -/
def nextDay : Nat × Nat × Nat → Nat × Nat × Nat
  | (y, mo, d) =>
    if d < daysInMonth y mo then (y, mo, d + 1)
    else if mo < 12 then (y, mo + 1, 1)
    else (y + 1, 1, 1)

/-- k calendar days forward. -/
def addDays (p : Nat × Nat × Nat) (k : Nat) : Nat × Nat × Nat :=
  (List.range k).foldl (fun q _ => nextDay q) p

/-- The weekday vocabulary of dateutil's default parserinfo: full names and
three-letter abbreviations, looked up case-insensitively, Monday = 0. -/
def weekdayNames : List (String × Nat) :=
  [("MONDAY", 0), ("MON", 0), ("TUESDAY", 1), ("TUE", 1),
   ("WEDNESDAY", 2), ("WED", 2), ("THURSDAY", 3), ("THU", 3),
   ("FRIDAY", 4), ("FRI", 4), ("SATURDAY", 5), ("SAT", 5),
   ("SUNDAY", 6), ("SUN", 6)]

/-- Tokens of a day segment: maximal runs of characters other than
whitespace and dots, both of which dateutil's tokenizer treats as skippable
jump tokens. -/
def segTokensAux : List Char → List Char → List (List Char)
  | [], acc => if acc = [] then [] else [acc.reverse]
  | c :: rest, acc =>
    if c.isWhitespace || c == '.' then
      (if acc = [] then segTokensAux rest [] else acc.reverse :: segTokensAux rest [])
    else segTokensAux rest (c :: acc)

/-- Tokens of a day segment. -/
def segTokens (l : List Char) : List (List Char) := segTokensAux l []

/-- The weekday index of a day segment consisting of exactly one weekday
token, if any. -/
def segWeekday (seg : List Char) : Option Nat :=
  match segTokens seg with
  | [tok] => weekdayNames.lookup (String.mk (tok.map Char.toUpper))
  | _ => none

/-- Whether a (stripped) day segment is an explicit numeric day: one or two
digits, optionally with an English ordinal suffix, in the range dateutil
accepts as a day. -/
def segNumericDay (seg : List Char) : Bool :=
  let dds := seg.takeWhile Char.isDigit
  let suffix := seg.drop dds.length
  decide (1 ≤ dds.length ∧ dds.length ≤ 2 ∧
    (suffix = [] ∨ suffix = "st".data ∨ suffix = "nd".data ∨
     suffix = "rd".data ∨ suffix = "th".data) ∧
    1 ≤ digitsToNat dds ∧ digitsToNat dds ≤ 31)

/-- Modelled from the dateutil library: dateparser.parse on a string of the
shape matched by the date regex (month name, day segment, comma, four-digit
year).  An explicit 1-2 digit day (optional English ordinal suffix) is taken
from the string, subject to calendar validity (an explicit invalid date
raises inside dateutil and falls back to the raw match).  A blank day
segment takes the day of the current date, dateutil's documented default for
missing components, clamped to the end of the parsed month (dateutil's
_build_naive falls back to the month end when the default day exceeds it).
A day segment that is a single weekday token (dots and whitespace are jump
tokens) gives dateutil a weekday without a day: it applies
relativedelta(weekday=...) to the default current date with the parsed year
and month, rolling forward zero to six days (possibly across a month end).
Any other day segment fails to parse.  Returns (month, day, year) of the
resulting date; a current day outside a real calendar's 1-31 range is
rejected. -/
def dateutilParseModel (todayDay : Nat) (l : List Char) : Option (Nat × Nat × Nat) :=
  match monthAtAux monthNames 1 l with
  | none => none
  | some (mo, k) =>
    let rest := l.drop k
    let seg := rest.takeWhile (fun c => !(c == ','))
    let rest2 := rest.drop (seg.length + 1)
    let ws := rest2.takeWhile Char.isWhitespace
    let ds := (rest2.drop ws.length).takeWhile Char.isDigit
    let year := digitsToNat (ds.take 4)
    let segT := trimL seg
    if segT = [] then
      (if 1 ≤ todayDay ∧ todayDay ≤ 31 then
        some (mo, min todayDay (daysInMonth year mo), year)
      else none)
    else if segNumericDay segT then
      (let d := digitsToNat (segT.takeWhile Char.isDigit)
       if d ≤ daysInMonth year mo then some (mo, d, year) else none)
    else
      match segWeekday segT with
      | some w =>
        if 1 ≤ todayDay ∧ todayDay ≤ 31 then
          let baseDay := min todayDay (daysInMonth year mo)
          let jump := (7 - weekdayOf year mo baseDay + w) % 7
          let adjusted := addDays (year, mo, baseDay) jump
          some (adjusted.2.1, adjusted.2.2, adjusted.1)
        else none
      | none => none

/-- strftime %B: full month name. -/
def monthName (mo : Nat) : String := (monthNames.drop (mo - 1)).headD ""

/-- strftime %d: zero-padded two-digit day. -/
def pad2 (n : Nat) : String := if n < 10 then "0" ++ toString n else toString n

/-- strftime("%B %d, %Y") on a (month, day, year) triple. -/
def strftimeBDY (mo d y : Nat) : String :=
  monthName mo ++ " " ++ pad2 d ++ ", " ++ toString y

/-- TXTParser._extract_date from qc_core.py, with the ambient current date
made explicit as todayDay (in the source it enters implicitly through
dateutil's default date).  A successful parse is re-serialized canonically;
a parse failure falls back to the raw matched substring; no match gives the
empty string. -/
def extract_date (todayDay : Nat) (txt : String) : String :=
  match findDateScan txt.data with
  | none => ""
  | some m =>
    match dateutilParseModel todayDay m with
    | none => ⟨m⟩
    | some (mo, d, y) => strftimeBDY mo d y

/-- The day segment of a date match: everything between the month name and
the comma, stripped. -/
def matchDaySeg (m : List Char) : List Char :=
  match monthAtAux monthNames 1 m with
  | none => []
  | some (_, k) => trimL ((m.drop k).takeWhile (fun c => !(c == ',')))

/-- A transcript whose leftmost date match (if any) carries an explicit
numeric day, so that dateutil takes the day from the string and neither the
current-date default (blank segment) nor the weekday adjustment
(weekday-only segment) can enter. -/
def dayExplicit (txt : String) : Prop :=
  ∀ m, findDateScan txt.data = some m → segNumericDay (matchDaySeg m) = true

lemma dateutilParseModel_day_indep (d₁ d₂ : Nat) (m : List Char)
    (h : segNumericDay (matchDaySeg m) = true) :
    dateutilParseModel d₁ m = dateutilParseModel d₂ m := by
  unfold matchDaySeg at h
  unfold dateutilParseModel
  cases hm : monthAtAux monthNames 1 m with
  | none => rfl
  | some p =>
    obtain ⟨mo, k⟩ := p
    rw [hm] at h
    have h' : segNumericDay (trimL ((m.drop k).takeWhile (fun c => !(c == ',')))) = true := by
      simpa using h
    simp only [hm]
    have hne : trimL ((m.drop k).takeWhile (fun c => !(c == ','))) ≠ [] := by
      intro he
      rw [he] at h'
      exact absurd h' (by decide)
    simp [hne, h']

/-- C9 counterexample: byte-identical input, different current dates,
different output.  The date text "January  , 2020" is matched by the date
regex with a blank day segment, so its re-serialization takes the day from
the current date (extraction on day 1 and on day 2 of a month disagree); and
the date text "January Monday, 2020" carries a weekday without a day, so
dateutil rolls the current date forward to that weekday (on 2020-01-06, a
Monday, it stays; on 2020-01-07 it jumps to 2020-01-13).  Both refute
run-to-run determinism on byte-identical input. -/
theorem extract_date_today_dependent_cx :
    extract_date 1 "January  , 2020" = "January 01, 2020" ∧
    extract_date 2 "January  , 2020" = "January 02, 2020" ∧
    extract_date 1 "January  , 2020" ≠ extract_date 2 "January  , 2020" ∧
    extract_date 6 "January Monday, 2020" = "January 06, 2020" ∧
    extract_date 7 "January Monday, 2020" = "January 13, 2020" ∧
    extract_date 6 "January Monday, 2020" ≠ extract_date 7 "January Monday, 2020" := by
  refine ⟨by decide, by decide, by decide, by decide, by decide, by decide⟩

/-- C9 amended: re-running on byte-identical inputs is deterministic except
for the current date entering date re-serialization through dateutil: the
temporal distance and hence the whole temporal comparison never depend on
the current date (the common date offset cancels), and date extraction is
independent of the current date whenever every matched date string carries
an explicit numeric day; a blank day segment takes the current date's day,
and a weekday-only day segment is resolved relative to the current date, so
either (as in the counterexample) lets the current date leak into the
output. -/
theorem run_date_independence :
    (∀ (d₁ d₂ t₁ t₂ : ℤ), timeDiffMinutes d₁ t₁ t₂ = timeDiffMinutes d₂ t₁ t₂) ∧
    (∀ (d₁ d₂ : ℤ) (i : Nat) (g f n txt pdf rb : String),
      compare_time d₁ i g f txt pdf rb n = compare_time d₂ i g f txt pdf rb n) ∧
    (∀ (d₁ d₂ : Nat) (txt : String), dayExplicit txt →
      extract_date d₁ txt = extract_date d₂ txt) := by
  refine ⟨?_, ?_, ?_⟩
  · intro d₁ d₂ t₁ t₂
    rw [timeDiffMinutes_eq_abs, timeDiffMinutes_eq_abs]
  · intro d₁ d₂ i g f n txt pdf rb
    unfold compare_time
    cases htxt : parseTimeVal txt with
    | none => rfl
    | some t => simp only [timeDiffMinutes_eq_abs]
  · intro d₁ d₂ txt h
    unfold extract_date
    cases hm : findDateScan txt.data with
    | none => rfl
    | some m =>
      have hd := dateutilParseModel_day_indep d₁ d₂ m (h m hm)
      simp [hd]

/-- Witness for the amended C9: a date text with an explicit day serializes
identically on two different current dates, and a concrete 3-minute time
distance is the same on two different current dates. -/
theorem run_date_independence_witness :
    extract_date 1 "January 5, 2020" = extract_date 2 "January 5, 2020" ∧
    timeDiffMinutes 0 32400 32580 = timeDiffMinutes 9 32400 32580 :=
  ⟨run_date_independence.2.2 1 2 "January 5, 2020" (by
      intro m hm
      have h2 : findDateScan ("January 5, 2020" : String).data =
          some ("January 5, 2020" : String).data := by decide
      rw [h2] at hm
      injection hm with h3
      rw [← h3]
      decide),
   run_date_independence.1 0 9 32400 32580⟩

/-- TXTParser.PAGE_NUMBER_REGEX tested against the stripped line: a line
whose stripped form is one to four digits is a page marker; its numeric value
is Python int of the digits (leading zeros ignored). -/
def markerNum (line : String) : Option Nat :=
  let t := trimL line.data
  if t ≠ [] ∧ t.length ≤ 4 ∧ t.all Char.isDigit then some (digitsToNat t) else none

/-- pages[current].append(line): append the line to the entry with this key. -/
def addLine : List (Nat × List String) → Nat → String → List (Nat × List String)
  | [], _, _ => []
  | (k, ls) :: rest, key, line =>
    if k = key then (k, ls ++ [line]) :: rest else (k, ls) :: addLine rest key line

/-- Python num in pages: key membership in the page mapping. -/
def pagesHasKey (pages : List (Nat × List String)) (n : Nat) : Bool :=
  pages.any (fun kv => kv.1 == n)

/-- The loop of TXTParser._split_pages over the remaining lines, carrying the
page mapping (an insertion-ordered association list, as a Python dict) and
the current page number. -/
def splitPagesAux : List String → List (Nat × List String) → Nat → List (Nat × List String)
  | [], pages, _ => pages
  | line :: rest, pages, current =>
    match markerNum line with
    | some n =>
      if pagesHasKey pages n then splitPagesAux rest pages current
      else splitPagesAux rest (pages ++ [(n, [])]) n
    | none => splitPagesAux rest (addLine pages current line) current

/-- TXTParser._split_pages from qc_core.py: page 1 is opened first and is the
initial current page. -/
def splitPages (lines : List String) : List (Nat × List String) :=
  splitPagesAux lines [(1, [])] 1

lemma addLine_hasKey (pages : List (Nat × List String)) (key : Nat) (line : String)
    (n : Nat) : pagesHasKey (addLine pages key line) n = pagesHasKey pages n := by
  induction pages with
  | nil => rfl
  | cons kv rest ih =>
    obtain ⟨k, ls⟩ := kv
    by_cases hk : k = key
    · simp [addLine, pagesHasKey, hk]
    · simp only [addLine, if_neg hk]
      simp only [pagesHasKey, List.any_cons] at ih ⊢
      rw [ih]

lemma splitPagesAux_preserves_key (lines : List String) :
    ∀ (pages : List (Nat × List String)) (current n : Nat),
      pagesHasKey pages n = true →
      pagesHasKey (splitPagesAux lines pages current) n = true := by
  induction lines with
  | nil =>
    intro pages current n h
    simpa [splitPagesAux] using h
  | cons line rest ih =>
    intro pages current n h
    unfold splitPagesAux
    cases hm : markerNum line with
    | none =>
      exact ih _ _ _ (by rw [addLine_hasKey]; exact h)
    | some k =>
      by_cases hk : pagesHasKey pages k = true
      · simp only [hk, if_true]
        exact ih _ _ _ h
      · simp only [hk, if_false, Bool.not_eq_true] at *
        rw [if_neg (by simp [hk])]
        refine ih _ _ _ ?_
        simp [pagesHasKey] at h ⊢
        tauto

/-- C5: page segmentation.  Page 1 is always present in the result; a line
whose marker value is already a known page number is silently dropped while
the current page keeps accumulating; a marker with a fresh value opens a new
page that becomes current; a non-marker line is appended to the current page;
and the two spec examples hold: ["1","Hello","2","World"] gives
{1: ["Hello"], 2: ["World"]} and ["1","A","1","B"] gives {1: ["A","B"]}. -/
theorem splitPages_spec :
    (∀ lines : List String, pagesHasKey (splitPages lines) 1 = true) ∧
    (∀ (line : String) (n : Nat) (rest : List String)
        (pages : List (Nat × List String)) (current : Nat),
      markerNum line = some n → pagesHasKey pages n = true →
      splitPagesAux (line :: rest) pages current = splitPagesAux rest pages current) ∧
    (∀ (line : String) (n : Nat) (rest : List String)
        (pages : List (Nat × List String)) (current : Nat),
      markerNum line = some n → pagesHasKey pages n = false →
      splitPagesAux (line :: rest) pages current =
        splitPagesAux rest (pages ++ [(n, [])]) n) ∧
    (∀ (line : String) (rest : List String)
        (pages : List (Nat × List String)) (current : Nat),
      markerNum line = none →
      splitPagesAux (line :: rest) pages current =
        splitPagesAux rest (addLine pages current line) current) ∧
    splitPages ["1", "Hello", "2", "World"] = [(1, ["Hello"]), (2, ["World"])] ∧
    splitPages ["1", "A", "1", "B"] = [(1, ["A", "B"])] := by
  refine ⟨?_, ?_, ?_, ?_, by decide, by decide⟩
  · intro lines
    exact splitPagesAux_preserves_key lines [(1, [])] 1 1 (by decide)
  · intro line n rest pages current h1 h2
    conv_lhs => unfold splitPagesAux
    simp [h1, h2]
  · intro line n rest pages current h1 h2
    conv_lhs => unfold splitPagesAux
    simp [h1, h2]
  · intro line rest pages current h1
    conv_lhs => unfold splitPagesAux
    simp [h1]

/-- Witness for C5: page 1 exists even when the lines never mention it, and a
repeated marker "1" is dropped at a concrete state. -/
theorem splitPages_spec_witness :
    pagesHasKey (splitPages ["5", "x"]) 1 = true ∧
    splitPagesAux ["1", "A", "1", "B"] [(1, [])] 1 =
      splitPagesAux ["A", "1", "B"] [(1, [])] 1 :=
  ⟨splitPages_spec.1 ["5", "x"],
   splitPages_spec.2.1 "1" 1 ["A", "1", "B"] [(1, [])] 1 (by decide) (by decide)⟩

/-- One bucket predicate per status of organize_results (the if/elif chain of
the source loop). -/
def isExactB (r : ComparisonResult) : Bool := r.status == "EXACT_MATCH"

/-- PARTIAL_MATCH bucket predicate. -/
def isPartB (r : ComparisonResult) : Bool := r.status == "PARTIAL_MATCH"

/-- NO_MATCH bucket predicate. -/
def isNoB (r : ComparisonResult) : Bool := r.status == "NO_MATCH"

/-- Everything-else (missing) bucket predicate: the else branch. -/
def isMissB (r : ComparisonResult) : Bool :=
  !(isExactB r) && !(isPartB r) && !(isNoB r)

/-- Sort key of organize_results: ascending field index. -/
def byIndex : ComparisonResult → ComparisonResult → Prop :=
  fun a b => a.index ≤ b.index

instance : DecidableRel byIndex := fun a b => Nat.decLe a.index b.index

instance : IsTotal ComparisonResult byIndex := ⟨fun a b => Nat.le_total a.index b.index⟩

instance : IsTrans ComparisonResult byIndex := ⟨fun _ _ _ => Nat.le_trans⟩

/-- The four named buckets of organize_results. -/
structure GroupedResults where
  exact : List ComparisonResult
  partialBucket : List ComparisonResult
  no : List ComparisonResult
  missing : List ComparisonResult

/-- organize_results from qc_core.py: the loop partitions the results by
status into four buckets (everything that is not EXACT_MATCH, PARTIAL_MATCH
or NO_MATCH lands in the missing bucket), and each bucket is then sorted by
ascending field index (Python's stable sort, modelled by insertion sort). -/
def organize_results (results : List ComparisonResult) : GroupedResults :=
  { exact := (results.filter isExactB).insertionSort byIndex,
    partialBucket := (results.filter isPartB).insertionSort byIndex,
    no := (results.filter isNoB).insertionSort byIndex,
    missing := (results.filter isMissB).insertionSort byIndex }

lemma four_filter_perm (l : List ComparisonResult) :
    (l.filter isExactB ++ (l.filter isPartB ++ (l.filter isNoB ++ l.filter isMissB))).Perm
      l := by
  induction l with
  | nil => simp
  | cons a t ih =>
    by_cases h1 : a.status = "EXACT_MATCH" <;>
      by_cases h2 : a.status = "PARTIAL_MATCH" <;>
      by_cases h3 : a.status = "NO_MATCH" <;>
      simp only [List.filter_cons, isExactB, isPartB, isNoB, isMissB, h1, h2, h3] <;>
      simp_all
    · exact List.perm_middle.trans (ih.cons a)
    · exact ((List.Perm.append_left _ List.perm_middle).trans List.perm_middle).trans
        (ih.cons a)
    · exact ((List.Perm.append_left _ ((List.Perm.append_left _ List.perm_middle).trans
        List.perm_middle)).trans List.perm_middle).trans (ih.cons a)

/-- C6: organize_results partitions any result sequence exactly: the four
buckets together are a permutation of the input, the EXACT/PARTIAL/NO buckets
hold exactly the results with the corresponding status, every other status
lands in the missing bucket, and each bucket is sorted by ascending index. -/
theorem organize_results_spec (results : List ComparisonResult) :
    (((organize_results results).exact ++ (organize_results results).partialBucket ++
      (organize_results results).no ++ (organize_results results).missing).Perm results) ∧
    (∀ r ∈ (organize_results results).exact, r.status = "EXACT_MATCH") ∧
    (∀ r ∈ (organize_results results).partialBucket, r.status = "PARTIAL_MATCH") ∧
    (∀ r ∈ (organize_results results).no, r.status = "NO_MATCH") ∧
    (∀ r ∈ (organize_results results).missing,
      r.status ≠ "EXACT_MATCH" ∧ r.status ≠ "PARTIAL_MATCH" ∧ r.status ≠ "NO_MATCH") ∧
    List.Sorted byIndex (organize_results results).exact ∧
    List.Sorted byIndex (organize_results results).partialBucket ∧
    List.Sorted byIndex (organize_results results).no ∧
    List.Sorted byIndex (organize_results results).missing := by
  refine ⟨?_, ?_, ?_, ?_, ?_, ?_, ?_, ?_, ?_⟩
  · have h1 := List.perm_insertionSort byIndex (results.filter isExactB)
    have h2 := List.perm_insertionSort byIndex (results.filter isPartB)
    have h3 := List.perm_insertionSort byIndex (results.filter isNoB)
    have h4 := List.perm_insertionSort byIndex (results.filter isMissB)
    have hall := ((h1.append h2).append h3).append h4
    refine hall.trans ?_
    rw [List.append_assoc, List.append_assoc]
    exact four_filter_perm results
  · intro r hr
    simp [organize_results, List.mem_filter, isExactB] at hr
    exact hr.2
  · intro r hr
    simp [organize_results, List.mem_filter, isPartB] at hr
    exact hr.2
  · intro r hr
    simp [organize_results, List.mem_filter, isNoB] at hr
    exact hr.2
  · intro r hr
    simp [organize_results, List.mem_filter, isMissB, isExactB, isPartB, isNoB] at hr
    exact ⟨hr.2.1.1, hr.2.1.2, hr.2.2⟩
  · exact List.sorted_insertionSort byIndex _
  · exact List.sorted_insertionSort byIndex _
  · exact List.sorted_insertionSort byIndex _
  · exact List.sorted_insertionSort byIndex _

/-- Witness for C6 on a concrete two-element result list: the theorem applied
at a concrete member of the exact bucket, plus the sortedness of that
bucket. -/
theorem organize_results_spec_witness :
    ComparisonResult.status ⟨1, "g", "f", "", "", "", "EXACT_MATCH", ""⟩ = "EXACT_MATCH" ∧
    List.Sorted byIndex (organize_results
      [⟨2, "g", "f", "", "", "", "NO_MATCH", ""⟩,
       ⟨1, "g", "f", "", "", "", "EXACT_MATCH", ""⟩]).exact :=
  ⟨(organize_results_spec
      [⟨2, "g", "f", "", "", "", "NO_MATCH", ""⟩,
       ⟨1, "g", "f", "", "", "", "EXACT_MATCH", ""⟩]).2.1
      ⟨1, "g", "f", "", "", "", "EXACT_MATCH", ""⟩ (by decide),
   (organize_results_spec
      [⟨2, "g", "f", "", "", "", "NO_MATCH", ""⟩,
       ⟨1, "g", "f", "", "", "", "EXACT_MATCH", ""⟩]).2.2.2.2.2.1⟩

/-- Python substring membership (needle in hay) over characters. -/
def listContainsSub : List Char → List Char → Bool
  | [], needle => needle.isEmpty
  | hay@(_ :: t), needle => startsWithList hay needle || listContainsSub t needle

lemma startsWithList_iff (n : List Char) :
    ∀ l : List Char, startsWithList l n = true ↔ ∃ post, l = n ++ post := by
  induction n with
  | nil =>
    intro l
    constructor
    · intro _; exact ⟨l, rfl⟩
    · intro _; cases l <;> rfl
  | cons b bs ih =>
    intro l
    cases l with
    | nil =>
      simp [startsWithList]
    | cons a t =>
      rw [startsWithList]
      constructor
      · intro h
        have h1 : a = b := by
          have := (Bool.and_eq_true _ _).mp h |>.1
          exact beq_iff_eq.mp this
        have h2 := (Bool.and_eq_true _ _).mp h |>.2
        obtain ⟨post, hpost⟩ := (ih t).mp h2
        exact ⟨post, by simp [h1, hpost]⟩
      · rintro ⟨post, hpost⟩
        injection hpost with hab htail
        apply (Bool.and_eq_true _ _).mpr
        exact ⟨beq_iff_eq.mpr hab, (ih t).mpr ⟨post, htail⟩⟩

lemma listContainsSub_iff (needle : List Char) :
    ∀ hay : List Char,
      listContainsSub hay needle = true ↔ ∃ pre post, hay = pre ++ needle ++ post := by
  intro hay
  induction hay with
  | nil =>
    rw [listContainsSub]
    constructor
    · intro h
      have : needle = [] := by
        cases needle with
        | nil => rfl
        | cons c cs => simp [List.isEmpty] at h
      exact ⟨[], [], by simp [this]⟩
    · rintro ⟨pre, post, h⟩
      have h1 : pre = [] ∧ needle ++ post = [] := by
        cases pre with
        | nil => exact ⟨rfl, h.symm⟩
        | cons p ps => simp at h
      have h2 : needle = [] := by
        rcases h1 with ⟨_, h12⟩
        cases needle with
        | nil => rfl
        | cons c cs => simp at h12
      simp [h2, List.isEmpty]
  | cons a t ih =>
    rw [listContainsSub]
    constructor
    · intro h
      rcases (Bool.or_eq_true _ _).mp h with h | h
      · obtain ⟨post, hpost⟩ := (startsWithList_iff needle (a :: t)).mp h
        exact ⟨[], post, by simp [hpost]⟩
      · obtain ⟨pre, post, hpp⟩ := ih.mp h
        exact ⟨a :: pre, post, by simp [hpp]⟩
    · rintro ⟨pre, post, h⟩
      apply (Bool.or_eq_true _ _).mpr
      cases pre with
      | nil =>
        left
        exact (startsWithList_iff needle (a :: t)).mpr ⟨post, by simpa using h⟩
      | cons p ps =>
        right
        refine ih.mpr ⟨ps, post, ?_⟩
        have h3 : a :: t = p :: (ps ++ needle ++ post) := by simpa using h
        exact (List.cons.inj h3).2

/-- One string occurs as a contiguous substring of another. -/
def SubStrOf (needle hay : String) : Prop :=
  ∃ pre post, hay.data = pre ++ needle.data ++ post

/-- Field 11 of run_all_comparisons in qc_core.py (On Behalf of Side Matches
Title Page): EXACT_MATCH when any extracted On-behalf role token,
case-normalized, occurs inside the case-normalized case style, else
NO_MATCH. -/
def onBehalfStatus (sides : List String) (caseStyle : String) : String :=
  if sides.any (fun x =>
      listContainsSub (normalize_case caseStyle).data (normalize_case x).data)
  then "EXACT_MATCH" else "NO_MATCH"

/-- Field 12 of run_all_comparisons in qc_core.py (Attorney Names / Contact
Info Present): EXACT_MATCH when the extracted attorney list is non-empty,
else NO_MATCH. -/
def attorneyStatus (attorneys : List String) : String :=
  if attorneys ≠ [] then "EXACT_MATCH" else "NO_MATCH"

/-- C7: field 11 is EXACT_MATCH exactly when some role token, upper-cased
after whitespace normalization, is a substring of the upper-cased normalized
case style, and NO_MATCH otherwise (in particular for an empty role list);
field 12 is EXACT_MATCH exactly when the attorney list is non-empty. -/
theorem structural_checks_spec (sides attorneys : List String) (caseStyle : String) :
    (onBehalfStatus sides caseStyle = "EXACT_MATCH" ↔
      ∃ x ∈ sides, SubStrOf (normalize_case x) (normalize_case caseStyle)) ∧
    (onBehalfStatus sides caseStyle = "NO_MATCH" ↔
      ¬ ∃ x ∈ sides, SubStrOf (normalize_case x) (normalize_case caseStyle)) ∧
    (sides = [] → onBehalfStatus sides caseStyle = "NO_MATCH") ∧
    (attorneyStatus attorneys = "EXACT_MATCH" ↔ attorneys ≠ []) ∧
    (attorneyStatus attorneys = "NO_MATCH" ↔ attorneys = []) := by
  have hiff : (sides.any (fun x =>
      listContainsSub (normalize_case caseStyle).data (normalize_case x).data) = true) ↔
      ∃ x ∈ sides, SubStrOf (normalize_case x) (normalize_case caseStyle) := by
    rw [List.any_eq_true]
    constructor
    · rintro ⟨x, hx, hf⟩
      exact ⟨x, hx, (listContainsSub_iff _ _).mp hf⟩
    · rintro ⟨x, hx, hf⟩
      exact ⟨x, hx, (listContainsSub_iff _ _).mpr hf⟩
  refine ⟨?_, ?_, ?_, ?_, ?_⟩
  · unfold onBehalfStatus
    by_cases h : sides.any (fun x =>
        listContainsSub (normalize_case caseStyle).data (normalize_case x).data) = true
    · rw [if_pos h]
      exact iff_of_true rfl (hiff.mp h)
    · rw [if_neg h]
      exact iff_of_false (by decide) (fun hp => h (hiff.mpr hp))
  · unfold onBehalfStatus
    by_cases h : sides.any (fun x =>
        listContainsSub (normalize_case caseStyle).data (normalize_case x).data) = true
    · rw [if_pos h]
      exact iff_of_false (by decide) (fun hnp => hnp (hiff.mp h))
    · rw [if_neg h]
      exact iff_of_true rfl (fun hp => h (hiff.mpr hp))
  · intro h
    subst h
    rfl
  · unfold attorneyStatus
    cases attorneys <;> simp
  · unfold attorneyStatus
    cases attorneys <;> simp

/-- Witness for C7: an empty role list classifies NO_MATCH, and a one-element
attorney list classifies EXACT_MATCH. -/
theorem structural_checks_spec_witness :
    onBehalfStatus [] "" = "NO_MATCH" ∧
    attorneyStatus ["Smith, Esq."] = "EXACT_MATCH" :=
  ⟨(structural_checks_spec [] [] "").2.2.1 rfl,
   (structural_checks_spec [] ["Smith, Esq."] "").2.2.2.1.mpr (by decide)⟩

/-- Python str.splitlines restricted to the line terminators occurring in
extracted PDF text: newline, carriage return, and CRLF; no trailing empty
line, and the empty string yields no lines. -/
def splitlinesAux : List Char → List Char → List (List Char)
  | [], acc => if acc = [] then [] else [acc.reverse]
  | '\r' :: '\n' :: rest, acc => acc.reverse :: splitlinesAux rest []
  | '\n' :: rest, acc => acc.reverse :: splitlinesAux rest []
  | '\r' :: rest, acc => acc.reverse :: splitlinesAux rest []
  | c :: rest, acc => splitlinesAux rest (c :: acc)

/-- str.splitlines over characters. -/
def splitlinesL (l : List Char) : List (List Char) := splitlinesAux l []

/-- Python str.rstrip over characters. -/
def rstripL (l : List Char) : List Char :=
  (l.reverse.dropWhile Char.isWhitespace).reverse

/-- Count of alphabetic characters (sum of ch.isalpha()). -/
def countAlpha (l : List Char) : Nat := (l.filter Char.isAlpha).length

/-- Count of lowercase characters (sum of ch.islower()). -/
def countLower (l : List Char) : Nat := (l.filter Char.isLower).length

/-- _looks_like_court_heading_line from qc_core.py: non-empty, contains
COURT case-insensitively, and among alphabetic characters the lowercase
fraction is at most 0.25 (written 4*lower <= alpha exactly). -/
def looksLikeCourtHeading (line : List Char) : Bool :=
  if line = [] then false
  else
    listContainsSub (line.map Char.toUpper) "COURT".data &&
    (decide (countAlpha line ≠ 0) && decide (4 * countLower line ≤ countAlpha line))

/-- The VS\.?. alternative of COURT_HEADING_STOP_PATTERN: VS followed by at
most one literal dot and one further non-newline character; on uppercased
input the optional-dot branch is subsumed by a dot being a non-newline
character, leaving: VS followed by any non-newline character. -/
def vsMatch : List Char → Bool
  | [] => false
  | c :: rest =>
    (match c, rest with
     | 'V', 'S' :: d :: _ => decide (d ≠ '\n')
     | _, _ => false) || vsMatch rest

/-- COURT_HEADING_STOP_PATTERN.search from qc_core.py: case-insensitive
alternation of party/heading stop words (the optional trailing dots of
CASE NO. and FILE NO. never affect a bare search). -/
def stopMatch (l : List Char) : Bool :=
  let u := l.map Char.toUpper
  listContainsSub u "PLAINTIFF".data || listContainsSub u "DEFENDANT".data ||
  vsMatch u || listContainsSub u "CIVIL ACTION".data ||
  listContainsSub u "CASE NO".data || listContainsSub u "FILE NO".data ||
  listContainsSub u "APPELLANT".data || listContainsSub u "RESPONDENT".data

/-- The follow-line loop of extract_court_heading_from_lines: stop at a blank
line, a stop-pattern hit, or a lowercase-heavy line; otherwise accumulate the
stripped line. -/
def collectHeading : List String → List String
  | [] => []
  | follow :: rest =>
    let stripped := strTrim follow
    if stripped = "" then []
    else if stopMatch stripped.data then []
    else if countAlpha stripped.data ≠ 0 ∧
        4 * countLower stripped.data > countAlpha stripped.data then []
    else stripped :: collectHeading rest

/-- extract_court_heading_from_lines from qc_core.py: find the first line
that looks like a court heading, then greedily append following upper-cased
lines, joining with single spaces. -/
def extract_court_heading_from_lines : List String → String
  | [] => ""
  | line :: rest =>
    if line = "" then extract_court_heading_from_lines rest
    else if looksLikeCourtHeading (strTrim line).data then
      String.intercalate " " (strTrim line :: collectHeading rest)
    else extract_court_heading_from_lines rest

/-- The (IN\s+THE|THE) keyword head of PDFParser._find_heading_block's
anchor regex, on uppercased text; returns the remainder after the keyword. -/
def kwConsume (l : List Char) : Option (List Char) :=
  if startsWithList l "IN".data then
    let r := l.drop 2
    let w := (r.takeWhile Char.isWhitespace).length
    if w ≠ 0 ∧ startsWithList (r.drop w) "THE".data then some ((r.drop w).drop 3)
    else none
  else if startsWithList l "THE".data then some (l.drop 3)
  else none

/-- Whether the anchor regex (IN\s+THE|THE)\s+[^\n]*COURT[^\n]* matches at
the head of the (uppercased) list: after the keyword, at least one whitespace
character, and COURT later on the same line as some split of the whitespace
run (the \s+ backtracking of the regex). -/
def headingStartMatch (l : List Char) : Bool :=
  match kwConsume l with
  | none => false
  | some rest =>
    let n := (rest.takeWhile Char.isWhitespace).length
    decide (n ≠ 0) && (List.range n).any (fun k =>
      listContainsSub ((rest.drop (k + 1)).takeWhile (fun c => !(c == '\n')))
        "COURT".data)

/-- Leftmost index at which the anchor regex matches (re.search m.start()). -/
def findHeadingIdx : List Char → Option Nat
  | [] => none
  | l@(_ :: t) =>
    if headingStartMatch l then some 0
    else (findHeadingIdx t).map (· + 1)

/-- The collection loop of PDFParser._find_heading_block: stop at a
stop-pattern hit, or at a lowercase-heavy line once something was collected. -/
def collectBlock : List (List Char) → Bool → List (List Char)
  | [], _ => []
  | ln :: rest, started =>
    if stopMatch ln then []
    else if countAlpha ln ≠ 0 ∧ 4 * countLower ln > countAlpha ln ∧ started then []
    else ln :: collectBlock rest true

/-- PDFParser._find_heading_block from qc_core.py: anchor on the first 1200
characters, then collect stripped non-empty lines until party metadata. -/
def findHeadingBlock (text : String) : String :=
  let snippet := text.data.take 1200
  match findHeadingIdx (snippet.map Char.toUpper) with
  | none => ""
  | some start =>
    let tail_lines := ((splitlinesL (snippet.drop start)).map trimL).filter (· ≠ [])
    String.intercalate " " ((collectBlock tail_lines false).map (fun l => String.mk l))

/-- PDFParser._extract_court_heading from qc_core.py: the shared line-based
heuristic first, the anchored block fallback second. -/
def extractCourtHeadingPDF (pageText : String) (rawLines : List String) : String :=
  let heading := extract_court_heading_from_lines rawLines
  if heading ≠ "" then heading else findHeadingBlock pageText

/-- The capture class [A-Za-z0-9\-\/\.] of the case-number regex. -/
def caseNumClass (c : Char) : Bool :=
  c.isAlphanum || c == '-' || c == '/' || c == '.'

/-- The \s*[#:]*\s* separator then the captured [A-Za-z0-9\-\/\.]+ run. -/
def caseNumberTail (r : List Char) : List Char :=
  let r1 := r.dropWhile Char.isWhitespace
  let r2 := r1.dropWhile (fun c => c == '#' || c == ':')
  let r3 := r2.dropWhile Char.isWhitespace
  r3.takeWhile caseNumClass

/-- One attempt of the case-number regex
(CIVIL ACTION FILE NO\.?|FILE NO\.?)\s*[#:]*\s*([A-Za-z0-9\-\/\.]+) at the
head of the list, with the optional-dot backtracking of \.? (the greedy
dot-consuming path is preferred, the dotless path tried when the capture
would otherwise be empty). -/
def caseNumberAt (l : List Char) : Option (List Char) :=
  let kwLen : Option Nat :=
    if startsWithList l "CIVIL ACTION FILE NO".data then some 20
    else if startsWithList l "FILE NO".data then some 7
    else none
  match kwLen with
  | none => none
  | some k =>
    let r := l.drop k
    match r with
    | '.' :: r' =>
      let cap := caseNumberTail r'
      if cap ≠ [] then some cap
      else
        let cap2 := caseNumberTail r
        if cap2 ≠ [] then some cap2 else none
    | _ =>
      let cap := caseNumberTail r
      if cap ≠ [] then some cap else none

/-- Leftmost-match scan of a positional matcher (re.search). -/
def scanOpt (f : List Char → Option (List Char)) : List Char → Option (List Char)
  | [] => none
  | l@(_ :: t) =>
    match f l with
    | some r => some r
    | none => scanOpt f t

/-- The case_number field of PDFParser.load: group 2 of the case-number
regex, stripped. -/
def findCaseNumber (s : String) : String :=
  match scanOpt caseNumberAt s.data with
  | none => ""
  | some cap => strTrim ⟨cap⟩

/-- Candidate comma indices for a lazy .+?, step: commas on the current line
preceded by at least one character, in lazy (left-to-right) order. -/
def commaIdxs : List Char → Nat → List Nat
  | [], _ => []
  | c :: t, i =>
    if c = '\n' then []
    else if c = ',' ∧ 1 ≤ i then i :: commaIdxs t (i + 1)
    else commaIdxs t (i + 1)

/-- Candidate positions of the letter V (uppercased text) for the lazy .*?v
step: on the current line, in lazy order. -/
def vIdxs : List Char → Nat → List Nat
  | [], _ => []
  | c :: t, i =>
    if c = '\n' then []
    else if c = 'V' then i :: vIdxs t (i + 1)
    else vIdxs t (i + 1)

/-- The trailing .+?,\s*Defendant step of the case-style regex at a position;
returns the consumed length. -/
def csTryDefendant (t : List Char) : Option Nat :=
  (commaIdxs t 0).findSome? (fun i =>
    let after := t.drop (i + 1)
    let w := (after.takeWhile Char.isWhitespace).length
    if startsWithList (after.drop w) "DEFENDANT".data then some (i + 1 + w + 9)
    else none)

/-- The v\.?.+?,\s*Defendant step at a V position (dot-consuming branch
first). -/
def csTryV (t : List Char) : Option Nat :=
  match t.drop 1 with
  | '.' :: t2 =>
    (match csTryDefendant t2 with
     | some n => some (2 + n)
     | none => (csTryDefendant (t.drop 1)).map (fun n => 1 + n))
  | _ => (csTryDefendant (t.drop 1)).map (fun n => 1 + n)

/-- The .*?v\.?.+?,\s*Defendant step after Plaintiff. -/
def csAfterPlaintiff (t : List Char) : Option Nat :=
  (vIdxs t 0).findSome? (fun j => (csTryV (t.drop j)).map (fun n => j + n))

/-- One attempt of the case-style regex
.+?,\s*Plaintiff.*?v\.?.+?,\s*Defendant (IGNORECASE) at the head of the
uppercased list; returns the match length. -/
def csMatchAt (s : List Char) : Option Nat :=
  (commaIdxs s 0).findSome? (fun i =>
    let after := s.drop (i + 1)
    let w := (after.takeWhile Char.isWhitespace).length
    if startsWithList (after.drop w) "PLAINTIFF".data then
      (csAfterPlaintiff (after.drop (w + 9))).map (fun n => i + 1 + w + 9 + n)
    else none)

/-- Leftmost-match scan returning position and match length. -/
def scanIdx (f : List Char → Option Nat) : List Char → Option (Nat × Nat)
  | [] => none
  | l@(_ :: t) =>
    match f l with
    | some n => some (0, n)
    | none => (scanIdx f t).map (fun p => (p.1 + 1, p.2))

/-- The case_style field of PDFParser.load: the whole match of the
case-style regex over the original text, stripped. -/
def findCaseStyle (s : String) : String :=
  match scanIdx csMatchAt (s.data.map Char.toUpper) with
  | none => ""
  | some (p, len) => strTrim ⟨(s.data.drop p).take len⟩

/-- The lazy (.+?)(?=[,\.]) step of the witness-name regex: the smallest
position of a comma or dot with at least one preceding non-newline
character. -/
def wnSepScan : List Char → Nat → Option Nat
  | [], _ => none
  | c :: t, i =>
    if c = ',' ∨ c = '.' then some i
    else if c = '\n' then none
    else wnSepScan t (i + 1)

/-- One attempt of the witness-name regex Deposition of\s+(.+?)(?=[,\.])
at the head of the list (case-sensitive, greedy \s+ splitting tried longest
first). -/
def wnAt (s : List Char) : Option (List Char) :=
  if startsWithList s "Deposition of".data then
    let t := s.drop 13
    let n := (t.takeWhile Char.isWhitespace).length
    if n = 0 then none
    else
      ((List.range n).map (fun i => n - i)).findSome? (fun k =>
        let u := t.drop k
        match u with
        | [] => none
        | c0 :: rest =>
          if c0 = '\n' then none
          else
            match wnSepScan rest 1 with
            | some q => some (u.take q)
            | none => none)
  else none

/-- The witness_name field of PDFParser.load: group 1, stripped. -/
def findWitnessName (s : String) : String :=
  match scanOpt wnAt s.data with
  | none => ""
  | some cap => strTrim ⟨cap⟩

/-- One attempt of the PDF date regex (month)[^,]*,\s*\d{4} (day segment may
be empty, unlike the transcript-side regex). -/
def dateMatchAtStar (l : List Char) : Option (List Char) :=
  match monthAtAux monthNames 1 l with
  | none => none
  | some (_, k) =>
    let rest := l.drop k
    let seg := rest.takeWhile (fun c => !(c == ','))
    match rest.drop seg.length with
    | ',' :: rest2 =>
      let ws := rest2.takeWhile Char.isWhitespace
      let ds := (rest2.drop ws.length).takeWhile Char.isDigit
      if 4 ≤ ds.length then some (l.take (k + seg.length + 1 + ws.length + 4))
      else none
    | _ => none

/-- Leftmost match of the PDF date regex. -/
def findDateScanStar : List Char → Option (List Char)
  | [] => none
  | l@(_ :: t) =>
    match dateMatchAtStar l with
    | some m => some m
    | none => findDateScanStar t

/-- The date field of PDFParser.load: the whole match, stripped. -/
def findDatePDF (s : String) : String :=
  match findDateScanStar s.data with
  | none => ""
  | some m => strTrim ⟨m⟩

/-- The literal meridiem alternation (AM|PM|a\.m\.|p\.m\.) of the start-time
regex (case-sensitive); returns the consumed length. -/
def meridiemLit (l : List Char) : Option Nat :=
  if startsWithList l "AM".data then some 2
  else if startsWithList l "PM".data then some 2
  else if startsWithList l "a.m.".data then some 4
  else if startsWithList l "p.m.".data then some 4
  else none

/-- One attempt of \d{1,2}:\d{2}\s*(AM|PM|a\.m\.|p\.m\.) with a fixed hour
width; returns the match length. -/
def startTimeAtHour (l : List Char) (hl : Nat) : Option Nat :=
  let hd := l.take hl
  if hd.length = hl ∧ hd.all Char.isDigit then
    match l.drop hl with
    | ':' :: r1 =>
      let md := r1.take 2
      if md.length = 2 ∧ md.all Char.isDigit then
        let r2 := r1.drop 2
        let w := (r2.takeWhile Char.isWhitespace).length
        match meridiemLit (r2.drop w) with
        | some ml => some (hl + 1 + 2 + w + ml)
        | none => none
      else none
    | _ => none
  else none

/-- One attempt of the start-time regex (greedy hour width: two digits
first). -/
def startTimeAt (l : List Char) : Option (List Char) :=
  match startTimeAtHour l 2 with
  | some n => some (l.take n)
  | none =>
    match startTimeAtHour l 1 with
    | some n => some (l.take n)
    | none => none

/-- The start_time field of PDFParser.load: group 1 (the whole clock span),
stripped. -/
def findStartTime (s : String) : String :=
  match scanOpt startTimeAt s.data with
  | none => ""
  | some m => strTrim ⟨m⟩

/-- The lazy (.*?)(?=\s{2,})-like step of the location regex: the smallest
index at which two consecutive whitespace characters start, with no newline
among the skipped characters. -/
def locTwoWS : List Char → Nat → Option Nat
  | [], _ => none
  | [_], _ => none
  | c :: d :: t, i =>
    if c.isWhitespace && d.isWhitespace then some i
    else if c = '\n' then none
    else locTwoWS (d :: t) (i + 1)

/-- One attempt of Location:\s*(.*?)\s{2,} at the head of the list (greedy
\s* splitting tried longest first). -/
def locationAt (s : List Char) : Option (List Char) :=
  if startsWithList s "Location:".data then
    let t := s.drop 9
    let w := (t.takeWhile Char.isWhitespace).length
    ((List.range (w + 1)).map (fun i => w - i)).findSome? (fun k =>
      let u := t.drop k
      (locTwoWS u 0).map (fun q => u.take q))
  else none

/-- The location field of PDFParser.load: group 1, stripped. -/
def findLocation (s : String) : String :=
  match scanOpt locationAt s.data with
  | none => ""
  | some cap => strTrim ⟨cap⟩

/-- text += page_text over the extracted page texts. -/
def joinStrings (l : List String) : String := l.foldl (· ++ ·) ""

/-- PDFParser.load from qc_core.py.  File access and PyPDF2 extraction stay
outside the embedding: the argument is the outcome of the guarded read, none
when PdfReader or a page extraction raised (the except path returns the
empty mapping), some with the per-page text blocks otherwise.  Everything
after the try block is pure string work and is embedded. -/
def PDFParser_load (readResult : Option (List String)) : List (String × String) :=
  match readResult with
  | none => []
  | some pageTexts =>
    let text := joinStrings pageTexts
    let first_page_text := pageTexts.headD ""
    let primary_text := if first_page_text ≠ "" then first_page_text else text
    let raw_lines := (splitlinesL primary_text.data).map (fun l => String.mk (rstripL l))
    let normalized := String.mk (squeezeWS primary_text.data)
    [("court_heading", extractCourtHeadingPDF primary_text raw_lines),
     ("case_number", findCaseNumber normalized),
     ("case_style", findCaseStyle normalized),
     ("witness_name", findWitnessName normalized),
     ("date", findDatePDF normalized),
     ("start_time", findStartTime normalized),
     ("location", findLocation normalized)]

/-- pdf_data.get(key) as consumed by run_all_comparisons (a missing key
degrades to the empty string in ComparisonResult). -/
def pdfGet (data : List (String × String)) (k : String) : String :=
  (data.lookup k).getD ""

lemma joinStrings_all_empty :
    ∀ l : List String, (∀ p ∈ l, p = "") → joinStrings l = "" := by
  intro l
  induction l with
  | nil => intro _; rfl
  | cons p t ih =>
    intro h
    have hp : p = "" := h p (List.mem_cons_self p t)
    have hstep : joinStrings (p :: t) = joinStrings t := by
      simp [joinStrings, hp]
    rw [hstep]
    exact ih (fun q hq => h q (List.mem_cons_of_mem p hq))

lemma lookupD_all_empty (k : String) :
    ∀ m : List (String × String), (∀ kv ∈ m, kv.2 = "") →
      (m.lookup k).getD "" = "" := by
  intro m
  induction m with
  | nil => intro _; rfl
  | cons kv t ih =>
    intro h
    obtain ⟨k1, v1⟩ := kv
    have hv : v1 = "" := h (k1, v1) (List.mem_cons_self _ t)
    by_cases hk : k = k1
    · simp [List.lookup, hk, hv]
    · have hb : (k == k1) = false := beq_eq_false_iff_ne.mpr hk
      simp only [List.lookup, hb]
      exact ih (fun kv hkv => h kv (List.mem_cons_of_mem _ hkv))

/-- C8: the notice-field extractor never raises (it is a total function of
the guarded read outcome): an unreadable document (the except path) yields
the empty field mapping, and a readable document whose pages carry no text
yields only empty field values, so that every notice-side value consumed
downstream degrades to the empty string. -/
theorem pdf_load_degrades :
    PDFParser_load none = [] ∧
    (∀ k, pdfGet (PDFParser_load none) k = "") ∧
    (∀ pages : List String, (∀ p ∈ pages, p = "") →
      ∀ k, pdfGet (PDFParser_load (some pages)) k = "") := by
  refine ⟨rfl, fun _ => rfl, ?_⟩
  intro pages hall k
  have hjoin : joinStrings pages = "" := joinStrings_all_empty pages hall
  have hhead : pages.headD "" = "" := by
    cases pages with
    | nil => rfl
    | cons p t => exact hall p (List.mem_cons_self p t)
  have hload : PDFParser_load (some pages) =
      [("court_heading", ""), ("case_number", ""), ("case_style", ""),
       ("witness_name", ""), ("date", ""), ("start_time", ""), ("location", "")] := by
    simp only [PDFParser_load]
    rw [hjoin, hhead]
    rfl
  unfold pdfGet
  rw [hload]
  refine lookupD_all_empty k _ ?_
  intro kv hkv
  simp at hkv
  rcases hkv with h | h | h | h | h | h | h <;> simp [h]

/-- Witness for C8: the unreadable case gives the empty mapping, and a
two-page document with empty page texts gives an empty witness-name value. -/
theorem pdf_load_degrades_witness :
    PDFParser_load none = [] ∧
    pdfGet (PDFParser_load (some ["", ""])) "witness_name" = "" :=
  ⟨pdf_load_degrades.1,
   pdf_load_degrades.2.2 ["", ""] (by decide) "witness_name"⟩

end QC
